import Mathlib

/-!
Shallow embedding of the Uber-receipt report generator
(`src/data/uber_loader.py` and `src/pdf/uber_builder.py`).

Python strings are sequences of Unicode code points, so they are embedded
as `List Char`.  Python floats produced by parsing decimal text are embedded
as exact rationals `ℚ` (every value exercised here is an exact decimal).
Regular expressions from the source are translated into explicit scanning
functions; each translation is justified in the comment above it.
-/

/-- A Python string: a list of Unicode code points. -/
abbrev Cs := List Char

/-- The character class matched by Python's `\s` (ASCII part).  Cleaned lines
only ever contain plain spaces, so the ASCII subset is sufficient here. -/
def isPySpace (c : Char) : Bool :=
  c = ' ' || c = '\t' || c = '\n' || c = '\r' || c = '\x0b' || c = '\x0c'

/-- Worker of `collapseWs`; the flag records whether the scan stands inside a
whitespace run whose single replacement space was already emitted. -/
def collapseWsAux : Bool → Cs → Cs
  | _, [] => []
  | inRun, c :: rest =>
    if isPySpace c then
      if inRun then collapseWsAux true rest else ' ' :: collapseWsAux true rest
    else c :: collapseWsAux false rest

/-- `re.sub(r"\s+", " ", value)`: collapse each maximal run of whitespace to a
single space. -/
def collapseWs (s : Cs) : Cs := collapseWsAux false s

/-- Python `str.strip()`: remove leading and trailing whitespace. -/
def trimWs (s : Cs) : Cs :=
  ((s.dropWhile isPySpace).reverse.dropWhile isPySpace).reverse

/-- Finite restriction of Unicode NFKD-decompose-and-drop-combining-marks to
the accented characters that occur in Portuguese receipt text (the only ones
`_norm_text` can meet here); all other characters decompose to themselves. -/
def deaccent (c : Char) : Char :=
  match c with
  | 'á' | 'à' | 'â' | 'ã' | 'ä' => 'a'
  | 'é' | 'è' | 'ê' | 'ë' => 'e'
  | 'í' | 'ì' | 'î' | 'ï' => 'i'
  | 'ó' | 'ò' | 'ô' | 'õ' | 'ö' => 'o'
  | 'ú' | 'ù' | 'û' | 'ü' => 'u'
  | 'ç' => 'c'
  | 'ñ' => 'n'
  | 'Á' | 'À' | 'Â' | 'Ã' | 'Ä' => 'A'
  | 'É' | 'È' | 'Ê' | 'Ë' => 'E'
  | 'Í' | 'Ì' | 'Î' | 'Ï' => 'I'
  | 'Ó' | 'Ò' | 'Ô' | 'Õ' | 'Ö' => 'O'
  | 'Ú' | 'Ù' | 'Û' | 'Ü' => 'U'
  | 'Ç' => 'C'
  | 'Ñ' => 'N'
  | 'º' => 'o'
  | 'ª' => 'a'
  | _ => c

/-- `_norm_text`: decompose accents and drop combining marks, remove U+FFFD,
lowercase, collapse whitespace, strip.  (After `deaccent` every character of
interest is ASCII, so `Char.toLower` agrees with Python `str.lower`.) -/
def norm_text (s : Cs) : Cs :=
  trimWs (collapseWs (((s.map deaccent).filter (fun c => c ≠ '�')).map Char.toLower))

/-- `_clean_text`: remove U+FFFD, collapse whitespace, strip. -/
def clean_text (s : Cs) : Cs :=
  trimWs (collapseWs (s.filter (fun c => c ≠ '�')))

/-- The character class `[0-9,.]` of the currency regex's captured group. -/
def isCurrencyChar (c : Char) : Bool := c.isDigit || c = ',' || c = '.'

/-- The character class `[0-9,.-]` kept by `re.sub(r"[^0-9,.-]", "", s)`. -/
def isKeptChar (c : Char) : Bool := c.isDigit || c = ',' || c = '.' || c = '-'

/-- Decimal value of a digit string (most significant first). -/
def natOfDigits (ds : Cs) : ℕ :=
  ds.foldl (fun acc c => 10 * acc + (c.toNat - 48)) 0

/-- Python `float(s)` on a sign-free string made of digits, `.` and `-` only:
digits, optionally a single point with digits on at least one side; the value
is exact (the source's binary-double rounding is immaterial for the decimal
values exercised by this program). -/
def pyFloatUnsigned (s : Cs) : Option ℚ :=
  let ip := s.takeWhile Char.isDigit
  match s.drop ip.length with
  | [] => if ip.isEmpty then none else some (natOfDigits ip)
  | '.' :: frac =>
    if frac.all Char.isDigit && (!ip.isEmpty || !frac.isEmpty) then
      some ((natOfDigits ip : ℚ) + (natOfDigits frac : ℚ) / (10 : ℚ) ^ frac.length)
    else none
  | _ => none

/-- Python `float(s)` with an optional leading minus sign. -/
def pyFloat (s : Cs) : Option ℚ :=
  match s with
  | '-' :: rest => (pyFloatUnsigned rest).map (fun q => -q)
  | _ => pyFloatUnsigned s

/-- `_parse_currency`: keep only `[0-9,.-]`; empty means `None`; if both comma
and period remain, periods are removed and commas become points, otherwise
commas become points; then parse as a float.  (The source's removal of U+FFFD
is subsumed by the character filter.) -/
def parse_currency (text : Cs) : Option ℚ :=
  let s := text.filter isKeptChar
  if s.isEmpty then none
  else
    let s2 :=
      if s.contains ',' && s.contains '.' then
        (s.filter (fun c => c ≠ '.')).map (fun c => if c = ',' then '.' else c)
      else s.map (fun c => if c = ',' then '.' else c)
    pyFloat s2

/-- Attempt of the regex `-?R\$\s*([0-9.,]+)` at one position, the optional
minus already consumed by the caller: literal `R$`, then `\s*`, then the
captured nonempty maximal run of `[0-9.,]`. -/
def currency_at (s : Cs) : Option Cs :=
  match s with
  | 'R' :: '$' :: rest =>
    let grp := (rest.dropWhile isPySpace).takeWhile isCurrencyChar
    if grp.isEmpty then none else some grp
  | _ => none

/-- `re.search(r"-?R\$\s*([0-9.,]+)", line)`: leftmost match; at a position
holding `-` the optional minus is consumed (a position can never match with
the minus unconsumed, since `-` is not `R`). -/
def search_currency : Cs → Option Cs
  | [] => none
  | c :: rest =>
    match (if c = '-' then currency_at rest else currency_at (c :: rest)) with
    | some g => some g
    | none => search_currency rest

/-- `_extract_currency_from_line`: if the regex matches, the result is the
parse of the captured group (even if that parse fails); otherwise parse the
whole line. -/
def extract_currency_from_line (line : Cs) : Option ℚ :=
  match search_currency line with
  | some g => parse_currency g
  | none => parse_currency line

/-- `needle` is a prefix of `hay`. -/
def startsList : Cs → Cs → Bool
  | [], _ => true
  | _ :: _, [] => false
  | a :: ns, b :: hs => a == b && startsList ns hs

/-- Python `needle in hay`: substring containment. -/
def occursIn : Cs → Cs → Bool
  | n, [] => startsList n []
  | n, c :: t => startsList n (c :: t) || occursIn n t

/-- `_find_value_after_keyword`: scan every line; at a line whose normalized
form contains the keyword, try that line, then the immediately following
line; the loop does not stop at a failed occurrence. -/
def find_value_after_keyword : List Cs → Cs → Option ℚ
  | [], _ => none
  | l :: rest, key =>
    if occursIn key (norm_text l) then
      match extract_currency_from_line l with
      | some v => some v
      | none =>
        match rest.head?.bind extract_currency_from_line with
        | some v => some v
        | none => find_value_after_keyword rest key
    else find_value_after_keyword rest key

/-- The character class `[a-zA-Z\.]` of the month group. -/
def isMonChar (c : Char) : Bool := c.isAlpha || c = '.'

/-- The fixed month table of `_parse_date_pt`. -/
def months_table : List (Cs × Cs) :=
  [("jan".data, "01".data), ("fev".data, "02".data), ("mar".data, "03".data),
   ("abr".data, "04".data), ("mai".data, "05".data), ("jun".data, "06".data),
   ("jul".data, "07".data), ("ago".data, "08".data), ("set".data, "09".data),
   ("out".data, "10".data), ("nov".data, "11".data), ("dez".data, "12".data)]

/-- `re.match(r"(\d{1,2}) de ([a-zA-Z\.]+) de (\d{4})", s)` as its three
groups.  Greedy runs need no backtracking: a shorter digit run is followed by
a digit where a space is required, and a shorter month run by a month
character, so only the maximal runs can extend to a full match. -/
def date_match (s : Cs) : Option (Cs × Cs × Cs) :=
  let ds := s.takeWhile Char.isDigit
  if ds.isEmpty || 2 < ds.length then none
  else
    let r1 := s.drop ds.length
    if startsList " de ".data r1 then
      let mon := (r1.drop 4).takeWhile isMonChar
      if mon.isEmpty then none
      else
        let r3 := (r1.drop 4).drop mon.length
        if startsList " de ".data r3 then
          let yr := (r3.drop 4).take 4
          if yr.length = 4 && yr.all Char.isDigit then some (ds, mon, yr) else none
        else none
    else none

/-- Python `str.strip(".")`: remove leading and trailing periods. -/
def stripDotsEnds (s : Cs) : Cs :=
  ((s.dropWhile (fun c => c = '.')).reverse.dropWhile (fun c => c = '.')).reverse

/-- `_parse_date_pt`: on a pattern match, zero-pad the day to two digits,
strip periods from the month token, look up its three-letter lowercase
prefix, and emit `YYYYMMDD`. -/
def parse_date_pt (date_text : Cs) : Option Cs :=
  match date_match date_text with
  | none => none
  | some (ds, mon_raw, yr) =>
    let day := if ds.length = 1 then '0' :: ds else ds
    match months_table.lookup (((stripDotsEnds mon_raw).take 3).map Char.toLower) with
    | none => none
    | some mn => some (yr ++ mn ++ day)

/-- The composition actually used by the loader (line 173):
`_parse_date_pt(_norm_text(data_str or ""))`. -/
def parse_date_pipeline (data_str : Option Cs) : Option Cs :=
  parse_date_pt (norm_text (data_str.getD []))

/-- Full match of `^\d{1,2}:\d{2}$`: one or two digits, a colon, exactly two
digits.  (Three or more leading digits can never match: both quantifier
choices then meet a digit where `:` is required.) -/
def isTimeLine (s : Cs) : Bool :=
  let h := s.takeWhile Char.isDigit
  (h.length = 1 || h.length = 2) &&
    match s.drop h.length with
    | ':' :: mm => mm.length = 2 && mm.all Char.isDigit
    | _ => false

/-- The date-header test of the loader (line 105):
`re.match(r"^\d{1,2} de ", norm)` together with the redundant
`" de " in norm`. -/
def isDateHeaderLine (l : Cs) : Bool :=
  let n := norm_text l
  let ds := n.takeWhile Char.isDigit
  (!ds.isEmpty && ds.length ≤ 2 && startsList " de ".data (n.drop ds.length)) &&
    occursIn " de ".data n

/-- The date/time header scan (lines 102-109): first matching line is the
date; the immediately following line is the time if it matches `^\d{1,2}:\d{2}$`. -/
def find_date_header : List Cs → Option Cs × Option Cs
  | [] => (none, none)
  | l :: rest =>
    if isDateHeaderLine l then
      (some (clean_text l),
        match rest with
        | nxt :: _ => if isTimeLine nxt then some (clean_text nxt) else none
        | [] => none)
    else find_date_header rest

/-- The payment scan (lines 119-124): line after the first line normalizing
exactly to `pagamentos`. -/
def find_pagamento : List Cs → Option Cs
  | [] => none
  | l :: rest =>
    if norm_text l == "pagamentos".data then
      match rest with
      | nxt :: _ => some (clean_text nxt)
      | [] => none
    else find_pagamento rest

/-- The lines after the first line normalizing exactly to
`informacoes da viagem`, when that anchor exists. -/
def linesAfterAnchor : List Cs → Option (List Cs)
  | [] => none
  | l :: rest =>
    if norm_text l == "informacoes da viagem".data then some rest
    else linesAfterAnchor rest

/-- Attempt of `([0-9.]+)\s*quilometros,\s*(\d+)\s*minutes` at one position.
Maximal runs again need no backtracking (a shorter run leaves a run character
where `\s*` followed by a letter must match). -/
def km_at (s : Cs) : Option (Cs × Cs) :=
  let g1 := s.takeWhile (fun c => c.isDigit || c = '.')
  if g1.isEmpty then none
  else
    let r1 := (s.drop g1.length).dropWhile isPySpace
    if startsList "quilometros,".data r1 then
      let r2 := (r1.drop 12).dropWhile isPySpace
      let g2 := r2.takeWhile Char.isDigit
      if g2.isEmpty then none
      else
        let r3 := (r2.drop g2.length).dropWhile isPySpace
        if startsList "minutes".data r3 then some (g1, g2) else none
    else none

/-- `re.search` of the distance/duration pattern: leftmost position wins. -/
def km_search : Cs → Option (Cs × Cs)
  | [] => none
  | c :: rest =>
    match km_at (c :: rest) with
    | some g => some g
    | none => km_search rest

/-- One origin/destination point: its time marker and joined address. -/
structure Ponto where
  hora : Cs
  endereco : Cs
deriving DecidableEq, Repr

/-- The point a finished address group denotes: `" ".join(addr).strip()`. -/
def mk_ponto (hora : Cs) (acc : List Cs) : Ponto :=
  { hora := hora, endereco := trimWs (List.intercalate [' '] acc) }

/-- The origin/destination loop (lines 151-167) as a line-by-line state
machine.  State `none` is the outer loop seeking a time marker (`need` points
may still be appended; `need = 0` is the `len(pontos) >= 2` break).  State
`some (hora, acc)` is the inner loop of a point opened at marker `hora` with
address fragments `acc` so far: a time marker closes the point and (cap
permitting) opens the next one at that marker, a line normalizing to a
`voce viajou` prefix closes the point and returns to seeking after that line,
any other line is appended, and the end of input closes the point. -/
def scan_pontos_aux : List Cs → ℕ → Option (Cs × List Cs) → List Ponto
  | [], _, none => []
  | [], _, some (hora, acc) => [mk_ponto hora acc]
  | l :: rest, need, none =>
    if need = 0 then []
    else if isTimeLine l then scan_pontos_aux rest (need - 1) (some (clean_text l, []))
    else scan_pontos_aux rest need none
  | l :: rest, need, some (hora, acc) =>
    if isTimeLine l then
      mk_ponto hora acc ::
        (if need = 0 then []
         else scan_pontos_aux rest (need - 1) (some (clean_text l, [])))
    else if startsList "voce viajou".data (norm_text l) then
      mk_ponto hora acc :: scan_pontos_aux rest need none
    else scan_pontos_aux rest need (some (hora, acc ++ [clean_text l]))

/-- `start_idx` handling (lines 145-149): scanning starts after the anchor,
or at the top of the document when the anchor is missing. -/
def trip_start_lines (lines : List Cs) : List Cs :=
  match linesAfterAnchor lines with
  | some rest => rest
  | none => lines

/-- The collected origin/destination points of a document: the scan starts in
seeking state with two points wanted. -/
def pontos_of (lines : List Cs) : List Ponto :=
  scan_pontos_aux (trip_start_lines lines) 2 none

/-- The parsed receipt record (`carregar_recibo_uber`'s result, minus the
`arquivo` field, which only restates the input file name). -/
structure Recibo where
  data_texto : Option Cs := none
  hora : Option Cs := none
  data_yyyymmdd : Option Cs := none
  total : Option ℚ := none
  preco_viagem : Option ℚ := none
  taxa_intermediacao : Option ℚ := none
  custo_fixo : Option ℚ := none
  promocao : Option ℚ := none
  pagamento_linha : Option Cs := none
  categoria : Option Cs := none
  distancia_km : Option Cs := none
  duracao_min : Option Cs := none
  origem : Option Ponto := none
  destino : Option Ponto := none
deriving DecidableEq, Repr

/-- `carregar_recibo_uber` from the point the document's cleaned nonempty
lines are in hand (line 99 of the loader); the `pypdf` page extraction before
that point is I/O.  The `distancia`/`duracao` groups are taken from the
normalized info line, as in the source. -/
def carregar_recibo_uber (lines : List Cs) : Recibo :=
  let hdr := find_date_header lines
  let after := linesAfterAnchor lines
  let info := after.bind (fun r => r[1]?)
  { data_texto := hdr.1
    hora := hdr.2
    data_yyyymmdd := parse_date_pt (norm_text (hdr.1.getD []))
    total := find_value_after_keyword lines "total".data
    preco_viagem := find_value_after_keyword lines "preco da viagem".data
    taxa_intermediacao := find_value_after_keyword lines "taxa de intermediacao".data
    custo_fixo := find_value_after_keyword lines "custo fixo".data
    promocao := find_value_after_keyword lines "promocao".data
    pagamento_linha := find_pagamento lines
    categoria := (after.bind List.head?).map clean_text
    distancia_km := (info.bind (fun t => km_search (norm_text t))).map Prod.fst
    duracao_min := (info.bind (fun t => km_search (norm_text t))).map Prod.snd
    origem := (pontos_of lines)[0]?
    destino := (pontos_of lines)[1]? }

/-!  Report-builder side (`src/pdf/uber_builder.py`). -/

/-- The net effect of the source's three `replace` calls (`,`→`X`, `.`→`,`,
`X`→`.`): swap commas and periods. -/
def fmt_sep_swap (c : Char) : Char :=
  if c = ',' then '.' else if c = '.' then ',' else c

/-- Round to the nearest integer, ties to even — the rounding of Python's
fixed-point float formatting (its inputs here are exact decimals, so the
binary-double representation is immaterial). -/
def roundHalfEven (q : ℚ) : ℤ :=
  let f := ⌊q⌋
  if q - f < 1 / 2 then f
  else if 1 / 2 < q - f then f + 1
  else if f % 2 = 0 then f else f + 1

/-- A natural number as at-least-two decimal digits (`%02d`). -/
def pad2 (n : ℕ) : Cs :=
  if n < 10 then '0' :: (Nat.repr n).data else (Nat.repr n).data

/-- Thousands grouping on a reversed digit string: a separator after every
three digits. -/
def group_thousands_rev : Cs → Cs
  | a :: b :: c :: d :: rest => a :: b :: c :: ',' :: group_thousands_rev (d :: rest)
  | r => r

/-- Python `f"{v:,.2f}"`: sign, thousands-grouped integer part, point, two
fraction digits. -/
def py_comma_fmt (v : ℚ) : Cs :=
  let cents := roundHalfEven (|v| * 100)
  (if v < 0 then ['-'] else []) ++
    (group_thousands_rev (Nat.repr (cents / 100).toNat).data.reverse).reverse ++
    '.' :: pad2 (cents % 100).toNat

/-- `_fmt_currency`: `None` renders as `-`; otherwise `R$ ` plus the
comma-grouped two-decimal rendering, with separators swapped to Brazilian
convention. -/
def fmt_currency (value : Option ℚ) : Cs :=
  match value with
  | none => "-".data
  | some v => ("R$ ".data ++ py_comma_fmt v).map fmt_sep_swap

/-- The promotion-sign snippet of `criar_relatorio_uber` (lines 233-236):
prepend `-` unless the formatted text is `-` or already starts with `-`. -/
def promo_display (promocao : Option ℚ) : Cs :=
  let f := fmt_currency promocao
  if f != "-".data && !startsList ['-'] f then '-' :: f else f

/-- Python `value or default` for optional strings: `None` and the empty
string both fall back to the default. -/
def or_default (v : Option Cs) (d : Cs) : Cs :=
  match v with
  | none => d
  | some s => if s.isEmpty then d else s

/-- `_sort_key`: `f"{data}_{hora}"` with the source's falsy-or defaults. -/
def sort_key (r : Recibo) : Cs :=
  or_default r.data_yyyymmdd "00000000".data ++ '_' :: or_default r.hora "00:00".data

/-- Python string `<`: lexicographic comparison of code points. -/
def lt_str : Cs → Cs → Bool
  | [], [] => false
  | [], _ :: _ => true
  | _ :: _, [] => false
  | a :: as, b :: bs => if a < b then true else if b < a then false else lt_str as bs

/-- The comparison `sorted(recibos, key=_sort_key)` sorts by: not-greater on
sort keys. -/
def le_key (a b : Recibo) : Bool := ! lt_str (sort_key b) (sort_key a)

/-- `recibos_ordenados = sorted(recibos, key=_sort_key)` (line 125): a stable
sort by the composite key. -/
def recibos_ordenados (rs : List Recibo) : List Recibo :=
  rs.mergeSort le_key

/-- Gregorian leap year, as `datetime` validates it. -/
def is_leap (y : ℕ) : Bool := (y % 4 = 0 && y % 100 ≠ 0) || y % 400 = 0

/-- Length of a month, as `datetime` validates it. -/
def days_in_month (y m : ℕ) : ℕ :=
  if m = 2 then (if is_leap y then 29 else 28)
  else if m = 4 || m = 6 || m = 9 || m = 11 then 30 else 31

/-- `_date_from_yyyymmdd`: `None`/short input fails; otherwise
`strptime("%Y%m%d")` succeeds exactly on eight digits splitting as a
calendar-valid year ≥ 1 / month / day (`%Y` takes exactly four digits; the
one-digit `%m`/`%d` alternatives cannot consume the remaining four digits). -/
def date_from_yyyymmdd (value : Option Cs) : Option (ℕ × ℕ × ℕ) :=
  match value with
  | none => none
  | some s =>
    if s.length = 8 && s.all Char.isDigit then
      let y := natOfDigits (s.take 4)
      let m := natOfDigits ((s.drop 4).take 2)
      let d := natOfDigits (s.drop 6)
      if 1 ≤ y && 1 ≤ m && m ≤ 12 && 1 ≤ d && d ≤ days_in_month y m then
        some (y, m, d)
      else none
    else none

/-- `d.strftime("%m/%Y")`: zero-padded month, unpadded year (glibc `%Y`). -/
def month_key (y m : ℕ) : Cs := pad2 m ++ '/' :: (Nat.repr y).data

/-- The per-week key `f"{month_key} • Semana {week_idx}"` with
`week_idx = ((d.day - 1) // 7) + 1` (line 169-170). -/
def week_key (y m d : ℕ) : Cs :=
  month_key y m ++ " • Semana ".data ++ (Nat.repr ((d - 1) / 7 + 1)).data

/-- `totals[k] = totals.get(k, 0.0) + v` on an insertion-ordered dict. -/
def upd_totals (t : List (Cs × ℚ)) (k : Cs) (v : ℚ) : List (Cs × ℚ) :=
  if (t.lookup k).isSome then
    t.map (fun p => if p.1 = k then (p.1, p.2 + v) else p)
  else t ++ [(k, v)]

/-- One iteration of the aggregation loop (lines 162-171): records whose
`data_yyyymmdd` does not parse contribute nothing; otherwise the record's
total (absent as `0.0`) is added under its month key and its week key. -/
def agg_step (acc : List (Cs × ℚ) × List (Cs × ℚ)) (r : Recibo) :
    List (Cs × ℚ) × List (Cs × ℚ) :=
  match date_from_yyyymmdd r.data_yyyymmdd with
  | none => acc
  | some (y, m, d) =>
    let t := r.total.getD 0
    (upd_totals acc.1 (month_key y m) t, upd_totals acc.2 (week_key y m d) t)

/-- The month/week aggregation over the record list the loop iterates
(`recibos_ordenados` in the source; the totals are the same for any order). -/
def aggregate_totals (rs : List Recibo) : List (Cs × ℚ) × List (Cs × ℚ) :=
  rs.foldl agg_step ([], [])

/-- Modelled from the spec: the chronological reading of a `H:MM`/`HH:MM`
time text, used to state what "the earlier time" means in the sorting claim;
the source itself never parses times numerically. -/
def time_minutes (s : Cs) : Option ℕ :=
  let h := s.takeWhile Char.isDigit
  match s.drop h.length with
  | ':' :: mm =>
    if (h.length = 1 || h.length = 2) && mm.length = 2 && mm.all Char.isDigit then
      some (natOfDigits h * 60 + natOfDigits mm)
    else none
  | _ => none

/-- Following the spec's words, for comparison with `parse_date_pt`: the
date text "matches the pattern `D de <month-name> de YYYY` and the month's
three-letter prefix is in the table". -/
def spec_date_recognized (s : Cs) : Bool :=
  match date_match s with
  | none => false
  | some (_, mon_raw, _) =>
    (months_table.lookup (((stripDotsEnds mon_raw).take 3).map Char.toLower)).isSome

/-- A decimal digit as a character. -/
def digit_char (n : ℕ) : Char :=
  match n with
  | 0 => '0' | 1 => '1' | 2 => '2' | 3 => '3' | 4 => '4'
  | 5 => '5' | 6 => '6' | 7 => '7' | 8 => '8' | _ => '9'

/-- Modelled from the spec: the zero-padded two-digit rendering of `n < 100`,
used only to quantify over well-formed `HH:MM` time texts when stating the
sorting claim; the source never renders times itself. -/
def two_digit (n : ℕ) : Cs := [digit_char (n / 10), digit_char (n % 10)]

/-- Modelled from the spec: a well-formed `HH:MM` time text with a two-digit
hour, the shape the sorting claim's "earlier time first" reading concerns. -/
def time_text (hh mm : ℕ) : Cs := two_digit hh ++ ':' :: two_digit mm

/-!  General lemmas about the embedded operations. -/

theorem days_in_month_le (y m : ℕ) : days_in_month y m ≤ 31 := by
  unfold days_in_month
  split
  · split <;> omega
  · split <;> omega

theorem natOfDigits_nil : natOfDigits [] = 0 := rfl

theorem pyFloatUnsigned_nonneg {s : Cs} {q : ℚ}
    (h : pyFloatUnsigned s = some q) : 0 ≤ q := by
  simp only [pyFloatUnsigned] at h
  split at h
  · split at h
    · exact absurd h (by simp)
    · obtain rfl : ((natOfDigits (s.takeWhile Char.isDigit) : ℚ)) = q := by
        simpa using h
      positivity
  · split at h
    · obtain rfl :
        ((natOfDigits (s.takeWhile Char.isDigit) : ℚ)) +
          (natOfDigits _ : ℚ) / (10 : ℚ) ^ _ = q := by
        simpa using h
      positivity
    · exact absurd h (by simp)
  · exact absurd h (by simp)

theorem pyFloatUnsigned_none_of_no_digit : ∀ {s : Cs}, (∀ c ∈ s, c.isDigit = false) →
    pyFloatUnsigned s = none := by
  intro s h
  cases s with
  | nil => rfl
  | cons a t =>
    have ha : a.isDigit = false := h a (List.mem_cons_self a t)
    have hip : List.takeWhile Char.isDigit (a :: t) = [] := by
      simp [List.takeWhile_cons, ha]
    simp only [pyFloatUnsigned, hip, List.length_nil, List.drop_zero]
    split
    · simp
    · rename_i frac heq
      have hfrac : ∀ c ∈ frac, c.isDigit = false := fun c hc =>
        h c (by rw [heq]; exact List.mem_cons_of_mem _ hc)
      cases frac with
      | nil => simp
      | cons b u => simp [hfrac b (List.mem_cons_self b u)]
    · rfl

theorem pyFloat_none_of_no_digit {s : Cs} (h : ∀ c ∈ s, c.isDigit = false) :
    pyFloat s = none := by
  unfold pyFloat
  split
  · rename_i rest
    rw [pyFloatUnsigned_none_of_no_digit (fun c hc => h c (List.mem_cons_of_mem _ hc))]
    rfl
  · exact pyFloatUnsigned_none_of_no_digit h

theorem parse_currency_none_of_no_digit {s : Cs} (h : ∀ c ∈ s, c.isDigit = false) :
    parse_currency s = none := by
  simp only [parse_currency]
  split
  · rfl
  · have hf : ∀ c ∈ s.filter isKeptChar, c.isDigit = false :=
      fun c hc => h c (List.mem_of_mem_filter hc)
    split
    · refine pyFloat_none_of_no_digit ?_
      intro c hc
      rcases List.mem_map.1 hc with ⟨b, hb, rfl⟩
      by_cases hbc : b = ','
      · simp [hbc]
      · simpa [hbc] using hf b (List.mem_of_mem_filter hb)
    · refine pyFloat_none_of_no_digit ?_
      intro c hc
      rcases List.mem_map.1 hc with ⟨b, hb, rfl⟩
      by_cases hbc : b = ','
      · simp [hbc]
      · simpa [hbc] using hf b hb

theorem currency_at_mem {s g : Cs} (h : currency_at s = some g) : ∀ c ∈ g, c ∈ s := by
  simp only [currency_at] at h
  split at h
  · rename_i rest
    split at h
    · exact absurd h (by simp)
    · intro c hc
      rw [← Option.some.inj h] at hc
      have h1 : c ∈ rest.dropWhile isPySpace :=
        (List.takeWhile_sublist isCurrencyChar).mem hc
      have h2 : c ∈ rest := (List.dropWhile_sublist isPySpace).mem h1
      simp [h2]
  · exact absurd h (by simp)

theorem search_currency_mem : ∀ {l g : Cs}, search_currency l = some g → ∀ c ∈ g, c ∈ l := by
  intro l
  induction l with
  | nil => intro g h; simp [search_currency] at h
  | cons a rest ih =>
    intro g h c hc
    unfold search_currency at h
    split at h
    · rename_i g2 heq
      obtain rfl := Option.some.inj h
      by_cases ha : a = '-'
      · rw [if_pos ha] at heq
        exact List.mem_cons_of_mem _ (currency_at_mem heq c hc)
      · rw [if_neg ha] at heq
        exact currency_at_mem heq c hc
    · exact List.mem_cons_of_mem _ (ih h c hc)

theorem extract_none_of_no_digit {line : Cs} (h : ∀ c ∈ line, c.isDigit = false) :
    extract_currency_from_line line = none := by
  unfold extract_currency_from_line
  cases hs : search_currency line with
  | none => exact parse_currency_none_of_no_digit h
  | some g =>
    exact parse_currency_none_of_no_digit (fun c hc => h c (search_currency_mem hs c hc))

theorem pyFloat_nonneg_of_no_minus {s : Cs} (h : ∀ c ∈ s, c ≠ '-') {q : ℚ}
    (hp : pyFloat s = some q) : 0 ≤ q := by
  unfold pyFloat at hp
  split at hp
  · rename_i rest
    exact absurd (h '-' (List.mem_cons_self _ _)) (by simp)
  · exact pyFloatUnsigned_nonneg hp

theorem parse_currency_nonneg {w : Cs} {q : ℚ} (hminus : ∀ c ∈ w, c ≠ '-')
    (h : parse_currency w = some q) : 0 ≤ q := by
  simp only [parse_currency] at h
  split at h
  · exact absurd h (by simp)
  · have hf : ∀ c ∈ w.filter isKeptChar, c ≠ '-' :=
      fun c hc => hminus c (List.mem_of_mem_filter hc)
    split at h
    · refine pyFloat_nonneg_of_no_minus ?_ h
      intro c hc
      rcases List.mem_map.1 hc with ⟨b, hb, rfl⟩
      by_cases hbc : b = ','
      · simp [hbc]
      · simpa [hbc] using hf b (List.mem_of_mem_filter hb)
    · refine pyFloat_nonneg_of_no_minus ?_ h
      intro c hc
      rcases List.mem_map.1 hc with ⟨b, hb, rfl⟩
      by_cases hbc : b = ','
      · simp [hbc]
      · simpa [hbc] using hf b hb

theorem isCurrencyChar_not_space {c : Char} (h : isCurrencyChar c = true) :
    isPySpace c = false := by
  by_contra hcon
  have hsp : isPySpace c = true := by simpa using hcon
  simp only [isPySpace, Bool.or_eq_true, decide_eq_true_eq] at hsp
  rcases hsp with ((((rfl | rfl) | rfl) | rfl) | rfl) | rfl <;> exact absurd h (by decide)

theorem takeWhile_of_all {p : Char → Bool} : ∀ {l : Cs}, (∀ c ∈ l, p c = true) →
    l.takeWhile p = l := by
  intro l
  induction l with
  | nil => intro _; rfl
  | cons a t ih =>
    intro h
    rw [List.takeWhile_cons, if_pos (h a (List.mem_cons_self a t))]
    rw [ih (fun c hc => h c (List.mem_cons_of_mem a hc))]

theorem lt_str_asymm : ∀ {a b : Cs}, lt_str a b = true → lt_str b a = false := by
  intro a
  induction a with
  | nil => intro b h; cases b <;> simp [lt_str] at h ⊢
  | cons x xs ih =>
    intro b h
    cases b with
    | nil => simp [lt_str] at h
    | cons y ys =>
      simp only [lt_str] at h ⊢
      by_cases hxy : x < y
      · rw [if_neg (lt_asymm hxy), if_pos hxy]
      · by_cases hyx : y < x
        · rw [if_neg hxy, if_pos hyx] at h
          exact absurd h (by simp)
        · rw [if_neg hxy, if_neg hyx] at h
          rw [if_neg hyx, if_neg hxy]
          exact ih h

theorem lt_str_connex : ∀ {a b : Cs}, lt_str a b = false → lt_str b a = false → a = b := by
  intro a
  induction a with
  | nil =>
    intro b h1 _
    cases b with
    | nil => rfl
    | cons y ys => simp [lt_str] at h1
  | cons x xs ih =>
    intro b h1 h2
    cases b with
    | nil => simp [lt_str] at h2
    | cons y ys =>
      simp only [lt_str] at h1 h2
      by_cases hxy : x < y
      · rw [if_pos hxy] at h1
        exact absurd h1 (by simp)
      · by_cases hyx : y < x
        · rw [if_pos hyx] at h2
          exact absurd h2 (by simp)
        · rw [if_neg hxy, if_neg hyx] at h1
          rw [if_neg hyx, if_neg hxy] at h2
          rw [le_antisymm (not_lt.1 hyx) (not_lt.1 hxy), ih h1 h2]

theorem lt_str_trans : ∀ {a b c : Cs}, lt_str a b = true → lt_str b c = true →
    lt_str a c = true := by
  intro a
  induction a with
  | nil =>
    intro b c h1 h2
    cases b with
    | nil => simp [lt_str] at h1
    | cons y ys =>
      cases c with
      | nil => simp [lt_str] at h2
      | cons z zs => simp [lt_str]
  | cons x xs ih =>
    intro b c h1 h2
    cases b with
    | nil => simp [lt_str] at h1
    | cons y ys =>
      cases c with
      | nil => simp [lt_str] at h2
      | cons z zs =>
        simp only [lt_str] at h1 h2 ⊢
        by_cases hxy : x < y
        · by_cases hyz : y < z
          · rw [if_pos (lt_trans hxy hyz)]
          · rw [if_neg hyz] at h2
            by_cases hzy : z < y
            · rw [if_pos hzy] at h2
              exact absurd h2 (by simp)
            · rw [if_pos (le_antisymm (not_lt.1 hzy) (not_lt.1 hyz) ▸ hxy)]
        · rw [if_neg hxy] at h1
          by_cases hyx : y < x
          · rw [if_pos hyx] at h1
            exact absurd h1 (by simp)
          · rw [if_neg hyx] at h1
            have hxy2 : x = y := le_antisymm (not_lt.1 hyx) (not_lt.1 hxy)
            by_cases hyz : y < z
            · rw [if_pos (hxy2 ▸ hyz)]
            · rw [if_neg hyz] at h2
              by_cases hzy : z < y
              · rw [if_pos hzy] at h2
                exact absurd h2 (by simp)
              · rw [if_neg hzy] at h2
                have hyz2 : y = z := le_antisymm (not_lt.1 hzy) (not_lt.1 hyz)
                have hxz : x = z := hxy2.trans hyz2
                rw [if_neg (hxz ▸ lt_irrefl x), if_neg (hxz ▸ lt_irrefl x)]
                exact ih h1 h2

theorem le_key_trans (a b c : Recibo) : le_key a b = true → le_key b c = true →
    le_key a c = true := by
  simp only [le_key, Bool.not_eq_true']
  intro h1 h2
  by_contra hcon
  have hca : lt_str (sort_key c) (sort_key a) = true := by
    simpa using hcon
  cases hbc : lt_str (sort_key b) (sort_key c) with
  | true => exact absurd (lt_str_trans hbc hca) (by simp [h1])
  | false =>
    have hbceq := lt_str_connex hbc h2
    rw [hbceq] at h1
    exact absurd hca (by simp [h1])

theorem le_key_total (a b : Recibo) : (le_key a b || le_key b a) = true := by
  simp only [le_key, Bool.or_eq_true, Bool.not_eq_true']
  by_cases h : lt_str (sort_key b) (sort_key a) = true
  · right
    exact lt_str_asymm h
  · left
    simpa using h

theorem lt_str_zeros : ∀ (a t₁ t₂ : Cs), (∀ c ∈ a, '0' ≤ c) → (∃ c ∈ a, '0' < c) →
    lt_str (List.replicate a.length '0' ++ t₁) (a ++ t₂) = true := by
  intro a
  induction a with
  | nil =>
    intro t1 t2 _ hex
    simp at hex
  | cons x xs ih =>
    intro t1 t2 hle hex
    simp only [List.length_cons, List.replicate_succ, List.cons_append, lt_str]
    by_cases hx : '0' < x
    · rw [if_pos hx]
    · have hx0 : x = '0' := le_antisymm (not_lt.1 hx) (hle x (List.mem_cons_self x xs))
      subst hx0
      rw [if_neg hx, if_neg hx]
      apply ih
      · exact fun c hc => hle c (List.mem_cons_of_mem _ hc)
      · rcases hex with ⟨c, hc, hclt⟩
        rcases List.mem_cons.1 hc with rfl | hc2
        · exact absurd hclt hx
        · exact ⟨c, hc2, hclt⟩

theorem lookup_mem_values {k v : Cs} : ∀ {t : List (Cs × Cs)}, t.lookup k = some v →
    v ∈ t.map Prod.snd := by
  intro t
  induction t with
  | nil => intro h; simp [List.lookup] at h
  | cons p rest ih =>
    intro h
    cases p with
    | mk a b =>
      simp only [List.lookup] at h
      split at h
      · rw [← Option.some.inj h]
        simp
      · simpa using Or.inr (ih h)

theorem char_zero_le_of_isDigit {c : Char} (h : c.isDigit = true) : '0' ≤ c := by
  simp [Char.isDigit] at h
  exact h.1

theorem date_match_shape {s ds mon yr : Cs} (h : date_match s = some (ds, mon, yr)) :
    1 ≤ ds.length ∧ ds.length ≤ 2 ∧ (∀ c ∈ ds, c.isDigit = true) ∧
    yr.length = 4 ∧ (∀ c ∈ yr, c.isDigit = true) := by
  simp only [date_match] at h
  split at h
  · exact absurd h (by simp)
  · rename_i hc1
    split at h
    · split at h
      · exact absurd h (by simp)
      · rename_i hmon
        split at h
        · split at h
          · rename_i hyr
            simp only [Option.some.injEq, Prod.mk.injEq] at h
            obtain ⟨h1, h2, h3⟩ := h
            subst h1
            subst h3
            simp only [Bool.or_eq_true, not_or, List.isEmpty_eq_true,
              decide_eq_true_eq] at hc1
            simp only [Bool.and_eq_true, decide_eq_true_eq, List.all_eq_true] at hyr
            refine ⟨?_, ?_, ?_, ?_, ?_⟩
            · rcases hc1 with ⟨hne, _⟩
              have := List.length_pos.2 hne
              omega
            · rcases hc1 with ⟨_, hle⟩
              omega
            · exact fun c hc => List.mem_takeWhile_imp hc
            · exact hyr.1
            · exact fun c hc => hyr.2 c hc
          · exact absurd h (by simp)
        · exact absurd h (by simp)
    · exact absurd h (by simp)

theorem parse_date_pt_key_shape {s e : Cs} (h : parse_date_pt s = some e) :
    e.length = 8 ∧ (∀ c ∈ e, '0' ≤ c) ∧ (∃ c ∈ e, '0' < c) := by
  simp only [parse_date_pt] at h
  split at h
  · exact absurd h (by simp)
  · rename_i grp ds mon yr heq
    split at h
    · exact absurd h (by simp)
    · rename_i mn hlk
      obtain rfl := Option.some.inj h
      obtain ⟨hds1, hds2, hdsd, hyr4, hyrd⟩ := date_match_shape heq
      have hmn : mn ∈ months_table.map Prod.snd := lookup_mem_values hlk
      have hmn2 : mn.length = 2 ∧ (∀ c ∈ mn, '0' ≤ c) ∧ (∃ c ∈ mn, '0' < c) := by
        fin_cases hmn <;> exact ⟨by decide, by decide, by decide⟩
      have hdaylen : (if ds.length = 1 then '0' :: ds else ds).length = 2 := by
        split
        · simp
          omega
        · omega
      have hdayd : ∀ c ∈ (if ds.length = 1 then '0' :: ds else ds), '0' ≤ c := by
        intro c hc
        split at hc
        · rcases List.mem_cons.1 hc with rfl | hc2
          · exact le_refl _
          · exact char_zero_le_of_isDigit (hdsd c hc2)
        · exact char_zero_le_of_isDigit (hdsd c hc)
      refine ⟨?_, ?_, ?_⟩
      · simp [hyr4, hmn2.1, hdaylen]
      · intro c hc
        rcases List.mem_append.1 hc with hc1 | hc2
        · rcases List.mem_append.1 hc1 with hc3 | hc4
          · exact char_zero_le_of_isDigit (hyrd c hc3)
          · exact hmn2.2.1 c hc4
        · exact hdayd c hc2
      · rcases hmn2.2.2 with ⟨c, hcmem, hclt⟩
        exact ⟨c, by simp [hcmem], hclt⟩

theorem digit_char_isDigit (n : ℕ) : (digit_char n).isDigit = true := by
  unfold digit_char
  split <;> decide

theorem digit_char_toNat {n : ℕ} (h : n ≤ 9) : (digit_char n).toNat = 48 + n := by
  interval_cases n <;> rfl

theorem digit_char_lt {x y : ℕ} (hy : y ≤ 9) (h : x < y) : digit_char x < digit_char y := by
  have hx : x ≤ 8 := by omega
  interval_cases x <;> interval_cases y <;> first | omega | decide

theorem lt_str_append_same : ∀ (k t1 t2 : Cs), lt_str (k ++ t1) (k ++ t2) = lt_str t1 t2 := by
  intro k
  induction k with
  | nil => intro t1 t2; rfl
  | cons a ks ih =>
    intro t1 t2
    simp only [List.cons_append, lt_str, if_neg (lt_irrefl a)]
    exact ih t1 t2

theorem two_digit_lt_append {x y : ℕ} (hyb : y ≤ 99) (h : x < y) (t1 t2 : Cs) :
    lt_str (two_digit x ++ t1) (two_digit y ++ t2) = true := by
  unfold two_digit
  simp only [List.cons_append, List.nil_append, lt_str]
  have hd : x / 10 < y / 10 ∨ (x / 10 = y / 10 ∧ x % 10 < y % 10) := by omega
  rcases hd with h1 | ⟨heq, h2⟩
  · rw [if_pos (digit_char_lt (by omega) h1)]
  · rw [heq, if_neg (lt_irrefl _), if_neg (lt_irrefl _),
      if_pos (digit_char_lt (by omega) h2)]

theorem natOfDigits_two_digit {n : ℕ} (h : n ≤ 99) : natOfDigits (two_digit n) = n := by
  unfold natOfDigits two_digit
  simp only [List.foldl_cons, List.foldl_nil]
  rw [digit_char_toNat (by omega), digit_char_toNat (by omega)]
  omega


/-!  Claim theorems. -/

/-- C1: for every list of cleaned input lines the parser returns a complete
`Recibo` (it is a total function of the lines), and each field equals its own
independent extraction rule applied to the lines — so an absent field (header,
keyword value, payment line, trip-info block, origin/destination) can never
block any other field, and a document where every rule fails still yields a
record with every field absent. -/
theorem parser_fields_independent :
    (∀ lines : List Cs,
      carregar_recibo_uber lines =
        { data_texto := (find_date_header lines).1
          hora := (find_date_header lines).2
          data_yyyymmdd := parse_date_pipeline (find_date_header lines).1
          total := find_value_after_keyword lines "total".data
          preco_viagem := find_value_after_keyword lines "preco da viagem".data
          taxa_intermediacao := find_value_after_keyword lines "taxa de intermediacao".data
          custo_fixo := find_value_after_keyword lines "custo fixo".data
          promocao := find_value_after_keyword lines "promocao".data
          pagamento_linha := find_pagamento lines
          categoria := ((linesAfterAnchor lines).bind List.head?).map clean_text
          distancia_km := (((linesAfterAnchor lines).bind (fun r => r[1]?)).bind
              (fun t => km_search (norm_text t))).map Prod.fst
          duracao_min := (((linesAfterAnchor lines).bind (fun r => r[1]?)).bind
              (fun t => km_search (norm_text t))).map Prod.snd
          origem := (pontos_of lines)[0]?
          destino := (pontos_of lines)[1]? }) ∧
    carregar_recibo_uber [] = {} ∧
    carregar_recibo_uber ["%%% ???".data, "###".data] = {} :=
  ⟨fun _ => rfl, by decide, by decide⟩

/-- C2: the promotion rendering snippet.  A present promotion of `10.0`
renders as `-R$ 10,00` and an absent one as `-`, as the claim states; but a
promotion stored as `-10.0` formats to `R$ -10,00`, which does not start with
`-`, so the forced minus is still prepended and the rendering is
`-R$ -10,00` — the guard meant to avoid double negation can never fire. -/
theorem promo_display_double_negative :
    promo_display (some 10) = "-R$ 10,00".data ∧
    promo_display none = "-".data ∧
    fmt_currency (some (-10)) = "R$ -10,00".data ∧
    promo_display (some (-10)) = "-R$ -10,00".data := by
  refine ⟨?_, by decide, ?_, ?_⟩
  · simp +decide [promo_display, fmt_currency, py_comma_fmt, roundHalfEven, startsList]
    norm_num
    decide
  · simp +decide [fmt_currency, py_comma_fmt, roundHalfEven]
    norm_num
    decide
  · simp +decide [promo_display, fmt_currency, py_comma_fmt, roundHalfEven, startsList]
    norm_num
    decide

/-- C5: the Portuguese date pipeline (`_parse_date_pt` over the normalized
header text) maps `5 de março de 2024` to `20240305`, accepts it
case-insensitively, matches the month by its three-letter prefix
(`marcolino` still yields March), and fails exactly when the
`D de <month> de YYYY` pattern does not match or the month prefix is not in
the twelve-entry table. -/
theorem date_parse_characterization :
    parse_date_pipeline (some "5 de março de 2024".data) = some "20240305".data ∧
    parse_date_pipeline (some "5 DE MARÇO DE 2024".data) = some "20240305".data ∧
    parse_date_pipeline (some "março de 2024".data) = none ∧
    parse_date_pipeline (some "5 de xyz de 2024".data) = none ∧
    parse_date_pt "5 de marcolino de 2024".data = some "20240305".data ∧
    ∀ s : Cs, (parse_date_pt s).isSome = spec_date_recognized s := by
  refine ⟨by decide, by decide, by decide, by decide, by decide, ?_⟩
  intro s
  unfold parse_date_pt spec_date_recognized
  cases h : date_match s with
  | none => rfl
  | some g =>
    obtain ⟨ds, mon, yr⟩ := g
    dsimp only
    cases hl : months_table.lookup (((stripDotsEnds mon).take 3).map Char.toLower) with
    | none => rfl
    | some mn => rfl

/-- C9: keyword matching is substring containment on the normalized line, so
the `total` value can be anchored by a line that merely contains `total`
inside `Subtotal`: with lines `Subtotal R$ 7,00` and `Total R$ 9,00` the
parser's `total` field is `7.0`, even though the later line is labelled
exactly `Total` and holds `9.0`. -/
theorem keyword_substring_anchoring :
    occursIn "total".data (norm_text "Subtotal R$ 7,00".data) = true ∧
    (carregar_recibo_uber ["Subtotal R$ 7,00".data, "Total R$ 9,00".data]).total = some 7 ∧
    extract_currency_from_line "Total R$ 9,00".data = some 9 := by
  refine ⟨by decide, ?_, ?_⟩
  · show find_value_after_keyword ["Subtotal R$ 7,00".data, "Total R$ 9,00".data] "total".data
      = some 7
    simp +decide [find_value_after_keyword, extract_currency_from_line, search_currency,
      currency_at, parse_currency, pyFloat, pyFloatUnsigned, natOfDigits]
  · simp +decide [extract_currency_from_line, search_currency, currency_at, parse_currency,
      pyFloat, pyFloatUnsigned, natOfDigits]

/-- C3 counterexample: with the lines `total`, `x`, `total`, `R$ 5,00`, the
first keyword line (`total`) and its following line (`x`) both fail currency
extraction, so under the claim the result would be absent; but the scan
continues to the later `total` occurrence and returns `5.0` from the line
after it. -/
theorem keyword_first_occurrence_cex :
    find_value_after_keyword ["total".data, "x".data, "total".data, "R$ 5,00".data]
      "total".data = some 5 ∧
    occursIn "total".data (norm_text "total".data) = true ∧
    extract_currency_from_line "total".data = none ∧
    extract_currency_from_line "x".data = none := by
  refine ⟨?_, by decide, by decide, by decide⟩
  simp +decide [find_value_after_keyword, extract_currency_from_line, search_currency,
    currency_at, parse_currency, pyFloat, pyFloatUnsigned, natOfDigits]

/-- C3 (amended): the keyword scan visits every line whose normalized form
contains the keyword, trying that line and then the immediately following
line; the first occurrence whose own line succeeds wins (earlier
non-matching lines are skipped), but a failed occurrence does not stop the
scan — later occurrences are consulted, and an absent result means every
keyword-bearing line itself failed extraction. -/
theorem keyword_scan_behavior :
    (∀ (v : ℚ) (key l : Cs) (pre rest : List Cs),
      (∀ p ∈ pre, occursIn key (norm_text p) = false) →
      occursIn key (norm_text l) = true →
      extract_currency_from_line l = some v →
      find_value_after_keyword (pre ++ l :: rest) key = some v) ∧
    (∀ (key : Cs) (lines : List Cs), find_value_after_keyword lines key = none →
      ∀ l ∈ lines, occursIn key (norm_text l) = true →
        extract_currency_from_line l = none) ∧
    find_value_after_keyword ["total".data, "x".data, "total".data, "R$ 5,00".data]
      "total".data = some 5 := by
  refine ⟨?_, ?_, ?_⟩
  · intro v key l pre rest
    induction pre with
    | nil =>
      intro _ hl hv
      simp [find_value_after_keyword, hl, hv]
    | cons p ps ih =>
      intro hpre hl hv
      have hp := hpre p (List.mem_cons_self p ps)
      rw [List.cons_append]
      rw [show find_value_after_keyword (p :: (ps ++ l :: rest)) key
          = find_value_after_keyword (ps ++ l :: rest) key by
        simp [find_value_after_keyword, hp]]
      exact ih (fun q hq => hpre q (List.mem_cons_of_mem _ hq)) hl hv
  · intro key lines
    induction lines with
    | nil => intro _ l hl; simp at hl
    | cons a rest ih =>
      intro hnone l hl hocc
      by_cases ha : occursIn key (norm_text a) = true
      · cases hea : extract_currency_from_line a with
        | some v =>
          exfalso
          simp [find_value_after_keyword, ha, hea] at hnone
        | none =>
          cases hb : rest.head?.bind extract_currency_from_line with
          | some v =>
            exfalso
            simp [find_value_after_keyword, ha, hea, hb] at hnone
          | none =>
            have hrest : find_value_after_keyword rest key = none := by
              simpa [find_value_after_keyword, ha, hea, hb] using hnone
            rcases List.mem_cons.1 hl with rfl | hl2
            · exact hea
            · exact ih hrest l hl2 hocc
      · have ha' : occursIn key (norm_text a) = false := by
          simpa using ha
        have hrest : find_value_after_keyword rest key = none := by
          simpa [find_value_after_keyword, ha'] using hnone
        rcases List.mem_cons.1 hl with rfl | hl2
        · exact absurd hocc (by simp [ha'])
        · exact ih hrest l hl2 hocc
  · simp +decide [find_value_after_keyword, extract_currency_from_line, search_currency,
      currency_at, parse_currency, pyFloat, pyFloatUnsigned, natOfDigits]

/-- Witness for the amended keyword-scan claim at concrete inputs. -/
theorem keyword_scan_behavior_witness :
    find_value_after_keyword ["preco".data, "Total R$ 9,00".data] "total".data = some 9 ∧
    extract_currency_from_line "total é".data = none := by
  constructor
  · exact keyword_scan_behavior.1 9 "total".data "Total R$ 9,00".data ["preco".data] []
      (by decide) (by decide)
      (by simp +decide [extract_currency_from_line, search_currency, currency_at,
            parse_currency, pyFloat, pyFloatUnsigned, natOfDigits])
  · exact keyword_scan_behavior.2.1 "total".data ["total é".data] (by decide)
      "total é".data (by decide) (by decide)

/-- C4 counterexample: a line may contain `R$ 1.234,56` and still not yield
`1234.56`, because `re.search` takes the leftmost `R$` match: the line
`R$ 1,00 e R$ 1.234,56` contains `R$ 1.234,56` yet extraction yields `1.0`. -/
theorem currency_any_line_cex :
    "R$ 1,00 e R$ 1.234,56".data = "R$ 1,00 e ".data ++ "R$ 1.234,56".data ∧
    extract_currency_from_line "R$ 1,00 e R$ 1.234,56".data = some 1 ∧
    (1 : ℚ) ≠ 1234.56 := by
  refine ⟨by decide, ?_, by norm_num⟩
  simp +decide [extract_currency_from_line, search_currency, currency_at, parse_currency,
    pyFloat, pyFloatUnsigned, natOfDigits]

/-- C4 (amended): currency extraction takes the line's *first* `R$` match —
so the line `R$ 1.234,56` itself (or one whose first match that is) yields
`1234.56`; the bare strings `1.234,56` and `1234,56` yield `1234.56`; a line
without digits yields absent; and parsing only ever sees the characters
`[0-9,.-]` of the line (all others are stripped first). -/
theorem currency_extraction_amended :
    extract_currency_from_line "R$ 1.234,56".data = some (1234.56 : ℚ) ∧
    extract_currency_from_line "Total: R$ 1.234,56".data = some (1234.56 : ℚ) ∧
    extract_currency_from_line "1.234,56".data = some (1234.56 : ℚ) ∧
    extract_currency_from_line "1234,56".data = some (1234.56 : ℚ) ∧
    parse_currency "1.234,56".data = some (1234.56 : ℚ) ∧
    parse_currency "1234,56".data = some (1234.56 : ℚ) ∧
    (∀ line : Cs, (∀ c ∈ line, c.isDigit = false) →
      extract_currency_from_line line = none) ∧
    (∀ s : Cs, parse_currency s = parse_currency (s.filter isKeptChar)) := by
  refine ⟨?_, ?_, ?_, ?_, ?_, ?_, ?_, ?_⟩
  · simp +decide [extract_currency_from_line, search_currency, currency_at, parse_currency,
      pyFloat, pyFloatUnsigned, natOfDigits]
    norm_num
  · simp +decide [extract_currency_from_line, search_currency, currency_at, parse_currency,
      pyFloat, pyFloatUnsigned, natOfDigits]
    norm_num
  · simp +decide [extract_currency_from_line, search_currency, currency_at, parse_currency,
      pyFloat, pyFloatUnsigned, natOfDigits]
    norm_num
  · simp +decide [extract_currency_from_line, search_currency, currency_at, parse_currency,
      pyFloat, pyFloatUnsigned, natOfDigits]
    norm_num
  · simp +decide [parse_currency, pyFloat, pyFloatUnsigned, natOfDigits]
    norm_num
  · simp +decide [parse_currency, pyFloat, pyFloatUnsigned, natOfDigits]
    norm_num
  · exact fun line h => extract_none_of_no_digit h
  · intro s
    have hff : (s.filter isKeptChar).filter isKeptChar = s.filter isKeptChar := by
      rw [List.filter_filter]
      congr 1
      funext a
      exact Bool.and_self _
    simp only [parse_currency, hff]

/-- Witness for the amended currency-extraction claim at a digit-free line. -/
theorem currency_extraction_amended_witness :
    extract_currency_from_line "abc-".data = none :=
  currency_extraction_amended.2.2.2.2.2.2.1 "abc-".data (by decide)

/-- C8: for a record whose `data_yyyymmdd` parses, the day lies in `1..31`
and the per-week aggregation key is `MM/YYYY • Semana N` with
`N = (day - 1) / 7 + 1`; a record whose key does not parse contributes to
neither aggregate; and concretely day 1 and day 7 land in week 1, day 8 in
week 2, and day 31 in week 5. -/
theorem week_bucketing_and_exclusion :
    (∀ (v : Option Cs) (y m d : ℕ), date_from_yyyymmdd v = some (y, m, d) →
      (1 ≤ d ∧ d ≤ 31) ∧
      week_key y m d =
        month_key y m ++ " • Semana ".data ++ (Nat.repr ((d - 1) / 7 + 1)).data) ∧
    (∀ (rs₁ rs₂ : List Recibo) (r : Recibo), date_from_yyyymmdd r.data_yyyymmdd = none →
      aggregate_totals (rs₁ ++ r :: rs₂) = aggregate_totals (rs₁ ++ rs₂)) ∧
    (aggregate_totals [{ data_yyyymmdd := some "20240101".data, total := some 10 }]).2
      = [("01/2024 • Semana 1".data, 10)] ∧
    (aggregate_totals [{ data_yyyymmdd := some "20240107".data, total := some 10 }]).2
      = [("01/2024 • Semana 1".data, 10)] ∧
    (aggregate_totals [{ data_yyyymmdd := some "20240108".data, total := some 10 }]).2
      = [("01/2024 • Semana 2".data, 10)] ∧
    (aggregate_totals [{ data_yyyymmdd := some "20240131".data, total := some 10 }]).2
      = [("01/2024 • Semana 5".data, 10)] := by
  refine ⟨?_, ?_, ?_, ?_, ?_, ?_⟩
  · intro v y m d h
    unfold date_from_yyyymmdd at h
    split at h
    · exact absurd h (by simp)
    · rename_i s
      split at h
      · dsimp only at h
        split at h
        · rename_i hcond
          simp only [Option.some.injEq, Prod.mk.injEq] at h
          obtain ⟨rfl, rfl, rfl⟩ := h
          simp only [Bool.and_eq_true, decide_eq_true_eq] at hcond
          have hdm := days_in_month_le (natOfDigits (s.take 4))
            (natOfDigits ((s.drop 4).take 2))
          refine ⟨⟨?_, ?_⟩, rfl⟩ <;> omega
        · exact absurd h (by simp)
      · exact absurd h (by simp)
  · intro rs₁ rs₂ r h
    have hstep : ∀ acc, agg_step acc r = acc := by
      intro acc
      unfold agg_step
      rw [h]
    unfold aggregate_totals
    rw [List.foldl_append, List.foldl_append, List.foldl_cons, hstep]
  · simp +decide [aggregate_totals, agg_step, date_from_yyyymmdd, week_key, month_key,
      pad2, upd_totals, natOfDigits, days_in_month, is_leap]
  · simp +decide [aggregate_totals, agg_step, date_from_yyyymmdd, week_key, month_key,
      pad2, upd_totals, natOfDigits, days_in_month, is_leap]
  · simp +decide [aggregate_totals, agg_step, date_from_yyyymmdd, week_key, month_key,
      pad2, upd_totals, natOfDigits, days_in_month, is_leap]
  · simp +decide [aggregate_totals, agg_step, date_from_yyyymmdd, week_key, month_key,
      pad2, upd_totals, natOfDigits, days_in_month, is_leap]

/-- Witness for the week-bucketing claim at a concrete date and record. -/
theorem week_bucketing_and_exclusion_witness :
    ((1 ≤ 31 ∧ 31 ≤ 31) ∧
      week_key 2024 1 31 =
        month_key 2024 1 ++ " • Semana ".data ++ (Nat.repr ((31 - 1) / 7 + 1)).data) ∧
    aggregate_totals [({} : Recibo)] = aggregate_totals ([] : List Recibo) := by
  constructor
  · exact week_bucketing_and_exclusion.1 (some "20240131".data) 2024 1 31 (by decide)
  · have h := week_bucketing_and_exclusion.2.1 [] [] ({} : Recibo) (by decide)
    simpa using h

theorem scan_pontos_aux_length : ∀ (ls : List Cs),
    (∀ need, (scan_pontos_aux ls need none).length ≤ need) ∧
    (∀ need hora acc, (scan_pontos_aux ls need (some (hora, acc))).length ≤ need + 1) := by
  intro ls
  induction ls with
  | nil =>
    refine ⟨fun need => by simp [scan_pontos_aux], fun need hora acc => ?_⟩
    simp [scan_pontos_aux]
  | cons l rest ih =>
    obtain ⟨ihn, ihs⟩ := ih
    constructor
    · intro need
      have ha := ihs (need - 1) (clean_text l) []
      have hb := ihn need
      simp only [scan_pontos_aux]
      split
      · simp
      · split <;> omega
    · intro need hora acc
      have ha := ihs (need - 1) (clean_text l) []
      have hb := ihn need
      have hc := ihs need hora (acc ++ [clean_text l])
      simp only [scan_pontos_aux]
      split
      · split <;> (try simp only [List.length_cons, List.length_nil]) <;> omega
      · split <;> (try simp only [List.length_cons, List.length_nil]) <;> omega

/-- C6: origin/destination extraction.  The record's `origem`/`destino` are
the first and second collected points; the scan starts after the
`informações da viagem` anchor; at a time-marker line a point opens, and its
address fragments are the following cleaned lines until another time marker
or a line whose normalized form starts with `voce viajou` (the terminator
itself never collected), joined by single spaces; at most two points are
collected; and on a concrete receipt layout the first group becomes the
origin, the second the destination, a third time marker is ignored, and with
fewer than two groups the destination is absent. -/
theorem origem_destino_extraction :
    (∀ lines : List Cs,
      (carregar_recibo_uber lines).origem = (pontos_of lines)[0]? ∧
      (carregar_recibo_uber lines).destino = (pontos_of lines)[1]?) ∧
    (∀ lines : List Cs, pontos_of lines = scan_pontos_aux (trip_start_lines lines) 2 none) ∧
    (∀ (l : Cs) (rest : List Cs) (need : ℕ),
      scan_pontos_aux (l :: rest) need none =
        if need = 0 then []
        else if isTimeLine l then scan_pontos_aux rest (need - 1) (some (clean_text l, []))
        else scan_pontos_aux rest need none) ∧
    (∀ (l : Cs) (rest : List Cs) (need : ℕ) (hora : Cs) (acc : List Cs),
      scan_pontos_aux (l :: rest) need (some (hora, acc)) =
        if isTimeLine l then
          mk_ponto hora acc ::
            (if need = 0 then []
             else scan_pontos_aux rest (need - 1) (some (clean_text l, [])))
        else if startsList "voce viajou".data (norm_text l) then
          mk_ponto hora acc :: scan_pontos_aux rest need none
        else scan_pontos_aux rest need (some (hora, acc ++ [clean_text l]))) ∧
    (∀ (need : ℕ) (hora : Cs) (acc : List Cs),
      scan_pontos_aux [] need (some (hora, acc)) = [mk_ponto hora acc]) ∧
    (∀ (hora : Cs) (acc : List Cs),
      mk_ponto hora acc = { hora := hora, endereco := trimWs (List.intercalate [' '] acc) }) ∧
    (∀ lines : List Cs, (pontos_of lines).length ≤ 2) ∧
    pontos_of ["Informações da viagem".data, "UberX".data,
        "10.3 quilômetros, 20 minutes".data, "14:05".data, "Rua A".data, "123".data,
        "14:30".data, "Av B".data, "Você viajou 5 km".data, "15:00".data, "depois".data]
      = [{ hora := "14:05".data, endereco := "Rua A 123".data },
         { hora := "14:30".data, endereco := "Av B".data }] ∧
    (carregar_recibo_uber ["Informações da viagem".data, "14:05".data, "Rua A".data]).origem
      = some { hora := "14:05".data, endereco := "Rua A".data } ∧
    (carregar_recibo_uber ["Informações da viagem".data, "14:05".data, "Rua A".data]).destino
      = none := by
  refine ⟨fun lines => ⟨rfl, rfl⟩, fun lines => rfl, fun l rest need => rfl,
    fun l rest need hora acc => rfl, fun need hora acc => rfl, fun hora acc => rfl,
    fun lines => ?_, by decide, by decide, by decide⟩
  simpa using (scan_pontos_aux_length (trip_start_lines lines)).1 2

theorem lt_str_sep_tail (p : Cs) (c : Char) (A B : Cs) :
    lt_str (p ++ c :: A) (p ++ c :: B) = lt_str A B := by
  have h := lt_str_append_same (p ++ [c]) A B
  simpa using h

/-- C7 counterexample: two records share the date `20240101` with header
times `9:00` (540 minutes, the earlier trip) and `10:00` (600 minutes); the
lexicographic composite key puts `10:00` before `9:00`, so the record with
the earlier time does not come first. -/
theorem sort_earlier_time_cex :
    recibos_ordenados
        [{ data_yyyymmdd := some "20240101".data, hora := some "9:00".data },
         { data_yyyymmdd := some "20240101".data, hora := some "10:00".data }]
      = [{ data_yyyymmdd := some "20240101".data, hora := some "10:00".data },
         { data_yyyymmdd := some "20240101".data, hora := some "9:00".data }] ∧
    time_minutes "9:00".data = some 540 ∧
    time_minutes "10:00".data = some 600 := by
  refine ⟨?_, by decide, by decide⟩
  simp +decide [recibos_ordenados, List.mergeSort, le_key, sort_key, lt_str, or_default]

/-- C7 (amended): the renderer sorts ascending by the composite key
(`date_yyyymmdd` defaulting to `00000000`, time text defaulting to `00:00`,
joined by `_`) compared lexicographically; a record with absent date and
time keys strictly below every record whose date was parsed; and among
records sharing a date the time *texts* compare lexicographically, which
agrees with chronological order when both times are well-formed `HH:MM`
texts with two-digit hours — the spec's own two-digit example sorts as
claimed. -/
theorem sort_by_composite_key :
    (∀ rs : List Recibo, (recibos_ordenados rs).Pairwise (fun a b => le_key a b = true)) ∧
    (∀ (r1 r2 : Recibo) (s e : Cs), r1.data_yyyymmdd = none → r1.hora = none →
      parse_date_pt s = some e → r2.data_yyyymmdd = some e →
      lt_str (sort_key r1) (sort_key r2) = true) ∧
    (∀ (r1 r2 : Recibo) (k : Cs) (hh1 mm1 hh2 mm2 : ℕ), k.isEmpty = false →
      r1.data_yyyymmdd = some k → r2.data_yyyymmdd = some k →
      r1.hora = some (time_text hh1 mm1) → r2.hora = some (time_text hh2 mm2) →
      hh1 ≤ 99 → hh2 ≤ 99 → mm1 ≤ 59 → mm2 ≤ 59 →
      hh1 * 60 + mm1 < hh2 * 60 + mm2 →
      lt_str (sort_key r1) (sort_key r2) = true) ∧
    recibos_ordenados
        [{ data_yyyymmdd := some "20240101".data, hora := some "09:00".data },
         { data_yyyymmdd := some "20240101".data, hora := some "08:00".data },
         ({} : Recibo)]
      = [({} : Recibo),
         { data_yyyymmdd := some "20240101".data, hora := some "08:00".data },
         { data_yyyymmdd := some "20240101".data, hora := some "09:00".data }] := by
  refine ⟨fun rs => List.sorted_mergeSort le_key_trans le_key_total rs, ?_, ?_, ?_⟩
  · intro r1 r2 s e h1d h1h hpd h2d
    obtain ⟨hlen, hge, hgt⟩ := parse_date_pt_key_shape hpd
    have he_ne : e.isEmpty = false := by
      cases e with
      | nil => simp at hlen
      | cons a t => rfl
    unfold sort_key
    rw [h1d, h1h, h2d]
    have hod : or_default (some e) "00000000".data = e := by
      simp [or_default, he_ne]
    rw [hod]
    show lt_str ("00000000".data ++ '_' :: "00:00".data) _ = true
    have hz : ("00000000".data : Cs) = List.replicate e.length '0' := by
      rw [hlen]
      rfl
    rw [hz]
    exact lt_str_zeros e _ _ hge hgt
  · intro r1 r2 k hh1 mm1 hh2 mm2 hk h1d h2d h1h h2h b1 b2 b3 b4 hlt
    unfold sort_key
    rw [h1d, h2d, h1h, h2h]
    have hodk : or_default (some k) "00000000".data = k := by
      simp [or_default, hk]
    have hodt : ∀ hh mm, or_default (some (time_text hh mm)) "00:00".data = time_text hh mm :=
      fun hh mm => rfl
    rw [hodk, hodt, hodt, lt_str_sep_tail]
    have hcase : hh1 < hh2 ∨ (hh1 = hh2 ∧ mm1 < mm2) := by omega
    rcases hcase with h | ⟨heq, h⟩
    · unfold time_text
      exact two_digit_lt_append b2 h _ _
    · subst heq
      unfold time_text
      rw [lt_str_sep_tail]
      have := two_digit_lt_append (show mm2 ≤ 99 by omega) h ([] : Cs) ([] : Cs)
      simpa using this
  · simp +decide [recibos_ordenados, List.mergeSort, le_key, sort_key, lt_str, or_default]

/-- Witness for the amended sorting claim at concrete records. -/
theorem sort_by_composite_key_witness :
    lt_str (sort_key ({} : Recibo))
        (sort_key { data_yyyymmdd := some "20240101".data }) = true ∧
    lt_str (sort_key { data_yyyymmdd := some "20240101".data, hora := some (time_text 8 0) })
        (sort_key { data_yyyymmdd := some "20240101".data, hora := some (time_text 9 0) })
      = true := by
  constructor
  · exact sort_by_composite_key.2.1 {} { data_yyyymmdd := some "20240101".data }
      "1 de jan de 2024".data "20240101".data rfl rfl (by decide) rfl
  · exact sort_by_composite_key.2.2.1 _ _ "20240101".data 8 0 9 0 (by decide) rfl rfl rfl rfl
      (by omega) (by omega) (by omega) (by omega) (by omega)

/-- C10: for a line of the form `-R$ <amount>` whose amount is made of
digits, commas and periods and parses as a currency value, the regex's
optional minus lies outside the captured group, so extraction returns the
amount's value with the sign discarded — a non-negative number; concretely
`-R$ 10,00` yields `10.0`. -/
theorem minus_outside_group_sign_discarded :
    (∀ (w : Cs) (q : ℚ), w ≠ [] → (∀ c ∈ w, isCurrencyChar c = true) →
      parse_currency w = some q →
      extract_currency_from_line ('-' :: ("R$ ".data ++ w)) = some q ∧ 0 ≤ q) ∧
    extract_currency_from_line "-R$ 10,00".data = some 10 := by
  constructor
  · intro w q hw hcc hpq
    have hsearch : search_currency ('-' :: ("R$ ".data ++ w)) = some w := by
      show search_currency ('-' :: 'R' :: '$' :: ' ' :: w) = some w
      have hdw : (' ' :: w).dropWhile isPySpace = w := by
        rw [List.dropWhile_cons, if_pos (by decide)]
        cases w with
        | nil => rfl
        | cons a t =>
          rw [List.dropWhile_cons,
            if_neg (by simp [isCurrencyChar_not_space (hcc a (List.mem_cons_self a t))])]
      have hempty : w.isEmpty = false := by
        cases w with
        | nil => exact absurd rfl hw
        | cons a t => rfl
      unfold search_currency
      rw [if_pos rfl]
      simp only [currency_at, hdw, takeWhile_of_all hcc, hempty, Bool.false_eq_true,
        if_false]
    constructor
    · unfold extract_currency_from_line
      rw [hsearch]
      exact hpq
    · refine parse_currency_nonneg ?_ hpq
      intro c hc
      intro hceq
      subst hceq
      exact absurd (hcc '-' hc) (by decide)
  · simp +decide [extract_currency_from_line, search_currency, currency_at, parse_currency,
      pyFloat, pyFloatUnsigned, natOfDigits]

/-- Witness for the sign-discarding claim at the amount `10,00`. -/
theorem minus_outside_group_sign_discarded_witness :
    extract_currency_from_line ('-' :: ("R$ ".data ++ "10,00".data)) = some 10 ∧
    (0 : ℚ) ≤ 10 :=
  minus_outside_group_sign_discarded.1 "10,00".data 10 (by decide) (by decide)
    (by simp +decide [parse_currency, pyFloat, pyFloatUnsigned, natOfDigits])
